import Mathlib

/-!
Verification of the junction command-execution service against its design
specification.  The definitions below are a shallow embedding of
`src/crates/junction/src/config.rs` and `src/crates/junction/src/server.rs`:
the `HashMap` of resolved outputs is modelled as an association list, the
environment reads of `get_modified_path` become explicit parameters, and
process execution in the `get_output` handler is abstracted as a function
from the resolved output definition to a spawn result.
-/

set_option maxRecDepth 4000

namespace Junction

/-- One output definition from the configuration: a slug naming the output,
the command to run and its argument list (`OutputConfig` in
`src/crates/junction/src/config.rs`). -/
structure OutputConfig where
  slug : String
  cmd : String
  args : List String
deriving DecidableEq, Repr

/-- The raw configuration: an ordered list of output definitions
(`Config` in `config.rs`). -/
structure Config where
  outputs : List OutputConfig
deriving DecidableEq, Repr

/-- Errors raised while resolving a raw configuration
(`ResolvedConfigError` in `config.rs`).  The single variant carries the
offending slug; its display string names that slug. -/
inductive ResolvedConfigError where
  | DuplicatePublicKey : String → ResolvedConfigError
deriving DecidableEq, Repr

/-- Association-list model of `HashMap::contains_key` on the map built by
`ResolvedConfig::new`. -/
def containsKey (m : List (String × OutputConfig)) (k : String) : Bool :=
  m.any (fun kv => kv.1 == k)

/-- Association-list model of `HashMap::get`. -/
def mapGet (m : List (String × OutputConfig)) (k : String) : Option OutputConfig :=
  (m.find? (fun kv => kv.1 == k)).map Prod.snd

/-- The loop of `ResolvedConfig::new` (`config.rs`): walk the definitions in
input order; if a slug is already present fail immediately with
`DuplicatePublicKey`, otherwise insert the definition keyed by its slug. -/
def buildOutputs : List OutputConfig → List (String × OutputConfig) →
    Except ResolvedConfigError (List (String × OutputConfig))
  | [], acc => .ok acc
  | o :: rest, acc =>
    if containsKey acc o.slug then .error (.DuplicatePublicKey o.slug)
    else buildOutputs rest (acc ++ [(o.slug, o)])

/-- The resolved configuration (`ResolvedConfig` in `config.rs`): the
slug-keyed map of outputs plus the data directory (its path kept as a
string). -/
structure ResolvedConfig where
  outputs : List (String × OutputConfig)
  data_dir : String
deriving DecidableEq, Repr

/-- Model of `ResolvedConfig::new` (`config.rs`): build the slug-keyed map
and attach the data directory, or fail on the first duplicate slug. -/
def ResolvedConfig.new (config : Config) (data_dir : String) :
    Except ResolvedConfigError ResolvedConfig :=
  match buildOutputs config.outputs [] with
  | .error e => .error e
  | .ok outputs => .ok ⟨outputs, data_dir⟩

/-- Model of `ResolvedConfig::get_output_by_slug` (`config.rs`). -/
def ResolvedConfig.get_output_by_slug (c : ResolvedConfig) (slug : String) :
    Option OutputConfig :=
  mapGet c.outputs slug

theorem containsKey_eq_true_iff (m : List (String × OutputConfig)) (k : String) :
    containsKey m k = true ↔ k ∈ m.map Prod.fst := by
  simp [containsKey, List.any_eq_true, List.mem_map]

theorem buildOutputs_dup (defs : List OutputConfig) :
    ∀ acc : List (String × OutputConfig),
      (acc.map Prod.fst).Nodup →
      ¬ (acc.map Prod.fst ++ defs.map OutputConfig.slug).Nodup →
      ∃ s, buildOutputs defs acc = .error (.DuplicatePublicKey s) ∧
        2 ≤ (acc.map Prod.fst ++ defs.map OutputConfig.slug).count s := by
  induction defs with
  | nil =>
    intro acc hacc hbad
    simp only [List.map_nil, List.append_nil] at hbad
    exact absurd hacc hbad
  | cons o rest ih =>
    intro acc hacc hbad
    by_cases hc : containsKey acc o.slug
    · have hmem : o.slug ∈ acc.map Prod.fst := (containsKey_eq_true_iff _ _).mp hc
      refine ⟨o.slug, by simp [buildOutputs, hc], ?_⟩
      have h1 : 0 < (acc.map Prod.fst).count o.slug := List.count_pos_iff.mpr hmem
      have h2 : ((o :: rest).map OutputConfig.slug).count o.slug =
          (rest.map OutputConfig.slug).count o.slug + 1 := by
        simp [List.count_cons]
      rw [List.count_append, h2]
      omega
    · have hnm : o.slug ∉ acc.map Prod.fst := fun hm =>
        hc ((containsKey_eq_true_iff _ _).mpr hm)
      have hkeys : ((acc ++ [(o.slug, o)]).map Prod.fst) =
          acc.map Prod.fst ++ [o.slug] := by simp
      have hcomb : ((acc ++ [(o.slug, o)]).map Prod.fst) ++ rest.map OutputConfig.slug =
          acc.map Prod.fst ++ (o :: rest).map OutputConfig.slug := by
        simp [List.append_assoc]
      have hacc2 : ((acc ++ [(o.slug, o)]).map Prod.fst).Nodup := by
        rw [hkeys]
        exact List.Nodup.append hacc (List.nodup_singleton _)
          (fun a ha hb => hnm ((List.mem_singleton.mp hb) ▸ ha))
      have hbad2 : ¬ (((acc ++ [(o.slug, o)]).map Prod.fst) ++
          rest.map OutputConfig.slug).Nodup := by
        rw [hcomb]; exact hbad
      obtain ⟨s, h1, h2⟩ := ih (acc ++ [(o.slug, o)]) hacc2 hbad2
      refine ⟨s, ?_, ?_⟩
      · simpa [buildOutputs, hc] using h1
      · rw [hcomb] at h2; exact h2

theorem buildOutputs_ok (defs : List OutputConfig) :
    ∀ acc : List (String × OutputConfig),
      (acc.map Prod.fst ++ defs.map OutputConfig.slug).Nodup →
      buildOutputs defs acc = .ok (acc ++ defs.map (fun o => (o.slug, o))) := by
  induction defs with
  | nil => intro acc _; simp [buildOutputs]
  | cons o rest ih =>
    intro acc h
    have hnm : o.slug ∉ acc.map Prod.fst := by
      have hd := (List.nodup_append.mp h).2.2
      intro hm
      exact hd hm (by simp)
    have hc : containsKey acc o.slug = false := by
      rw [Bool.eq_false_iff]
      intro hct
      exact hnm ((containsKey_eq_true_iff _ _).mp hct)
    have h2 : ((acc ++ [(o.slug, o)]).map Prod.fst ++
        rest.map OutputConfig.slug).Nodup := by
      simpa [List.append_assoc] using h
    have := ih (acc ++ [(o.slug, o)]) h2
    simp only [buildOutputs, hc, Bool.false_eq_true, if_false, this,
      List.map_cons, List.append_assoc, List.singleton_append]

theorem mapGet_map_of_mem (defs : List OutputConfig) (o : OutputConfig)
    (hnd : (defs.map OutputConfig.slug).Nodup) (hmem : o ∈ defs) :
    mapGet (defs.map (fun x => (x.slug, x))) o.slug = some o := by
  induction defs with
  | nil => simp at hmem
  | cons a rest ih =>
    rcases List.mem_cons.mp hmem with h | h
    · subst h
      simp [mapGet, List.find?_cons]
    · have hnd2 : (rest.map OutputConfig.slug).Nodup := (List.nodup_cons.mp hnd).2
      have hna : a.slug ∉ rest.map OutputConfig.slug := (List.nodup_cons.mp hnd).1
      have hne : (a.slug == o.slug) = false := by
        rw [beq_eq_false_iff_ne]
        intro he
        exact hna (he ▸ List.mem_map_of_mem OutputConfig.slug h)
      have := ih hnd2 h
      simpa [mapGet, List.find?_cons, hne] using this

theorem mapGet_map_of_not_mem (defs : List OutputConfig) (s : String)
    (h : s ∉ defs.map OutputConfig.slug) :
    mapGet (defs.map (fun x => (x.slug, x))) s = none := by
  induction defs with
  | nil => simp [mapGet]
  | cons a rest ih =>
    have hne : (a.slug == s) = false := by
      rw [beq_eq_false_iff_ne]
      intro he
      exact h (by simp [he])
    have hrest : s ∉ rest.map OutputConfig.slug := fun hm => h (by simp [hm])
    have := ih hrest
    simpa [mapGet, List.find?_cons, hne] using this

/-- C1: if the input definition list contains two definitions with the same
slug, `ResolvedConfig::new` fails with a `DuplicatePublicKey` error naming a
slug that occurs at least twice in the input, and no resolved registry is
produced (the construction is all-or-nothing). -/
theorem resolvedConfig_new_duplicate_slug (defs : List OutputConfig) (d : String)
    (h : ¬ (defs.map OutputConfig.slug).Nodup) :
    ∃ s, ResolvedConfig.new ⟨defs⟩ d = .error (.DuplicatePublicKey s) ∧
      2 ≤ (defs.map OutputConfig.slug).count s ∧
      ∀ rc, ResolvedConfig.new ⟨defs⟩ d ≠ .ok rc := by
  obtain ⟨s, h1, h2⟩ := buildOutputs_dup defs [] (by simp) (by simpa using h)
  refine ⟨s, ?_, by simpa using h2, ?_⟩
  · simp [ResolvedConfig.new, h1]
  · intro rc hrc
    simp [ResolvedConfig.new, h1] at hrc

/-- Witness for C1 at a concrete duplicated-slug configuration. -/
theorem resolvedConfig_new_duplicate_slug_witness :
    ∃ s, ResolvedConfig.new
        ⟨[⟨"a", "echo", ["x"]⟩, ⟨"a", "echo", ["y"]⟩]⟩ "/data" =
        .error (.DuplicatePublicKey s) ∧
      2 ≤ ([⟨"a", "echo", ["x"]⟩, ⟨"a", "echo", ["y"]⟩].map OutputConfig.slug).count s ∧
      ∀ rc, ResolvedConfig.new
        ⟨[⟨"a", "echo", ["x"]⟩, ⟨"a", "echo", ["y"]⟩]⟩ "/data" ≠ .ok rc :=
  resolvedConfig_new_duplicate_slug
    [⟨"a", "echo", ["x"]⟩, ⟨"a", "echo", ["y"]⟩] "/data" (by decide)

/-- C2: for every input definition list with pairwise distinct slugs,
`ResolvedConfig::new` succeeds, and on the resulting registry
`get_output_by_slug` returns exactly the input definition carrying each
input slug, and `none` for every other string. -/
theorem resolvedConfig_new_unique_slugs (defs : List OutputConfig) (d : String)
    (h : (defs.map OutputConfig.slug).Nodup) :
    ∃ rc : ResolvedConfig, ResolvedConfig.new ⟨defs⟩ d = .ok rc ∧
      rc.data_dir = d ∧
      (∀ o ∈ defs, rc.get_output_by_slug o.slug = some o) ∧
      (∀ s, s ∉ defs.map OutputConfig.slug → rc.get_output_by_slug s = none) := by
  have hb := buildOutputs_ok defs [] (by simpa using h)
  refine ⟨⟨defs.map (fun o => (o.slug, o)), d⟩, ?_, rfl, ?_, ?_⟩
  · simp [ResolvedConfig.new, hb]
  · intro o ho
    exact mapGet_map_of_mem defs o h ho
  · intro s hs
    exact mapGet_map_of_not_mem defs s hs

/-- Witness for C2 at a concrete two-entry configuration with distinct
slugs. -/
theorem resolvedConfig_new_unique_slugs_witness :
    ∃ rc : ResolvedConfig, ResolvedConfig.new
        ⟨[⟨"a", "echo", ["x"]⟩, ⟨"b", "ls", []⟩]⟩ "/data" = .ok rc ∧
      rc.data_dir = "/data" ∧
      (∀ o ∈ [⟨"a", "echo", ["x"]⟩, (⟨"b", "ls", []⟩ : OutputConfig)],
        rc.get_output_by_slug o.slug = some o) ∧
      (∀ s, s ∉ [⟨"a", "echo", ["x"]⟩, (⟨"b", "ls", []⟩ : OutputConfig)].map
          OutputConfig.slug → rc.get_output_by_slug s = none) :=
  resolvedConfig_new_unique_slugs
    [⟨"a", "echo", ["x"]⟩, ⟨"b", "ls", []⟩] "/data" (by decide)

/-- Splitting a character list at every colon, modelling Rust
`str::split(':')`: the empty input yields one empty segment, and adjacent
colons yield empty segments. -/
def splitColonList : List Char → List (List Char)
  | [] => [[]]
  | c :: t =>
    if c = ':' then [] :: splitColonList t
    else
      match splitColonList t with
      | [] => [[c]]
      | h :: r => (c :: h) :: r

/-- Model of `path.split(':')` on strings. -/
def splitColon (s : String) : List String :=
  (splitColonList s.data).map (fun l => ⟨l⟩)

/-- Model of the test `current_path.split(':').any(|p| p == x)` used in
`get_modified_path` (`server.rs`): whether `x` is an exact colon-delimited
segment of `path`. -/
def segOf (x path : String) : Bool :=
  (splitColon path).any (fun p => p == x)

/-- Model of `Vec::dedup`: collapse runs of adjacent equal elements. -/
def dedupAdj : List String → List String
  | [] => []
  | [a] => [a]
  | a :: b :: t => if a = b then dedupAdj (b :: t) else a :: dedupAdj (b :: t)

/-- Model of `Vec::join(":")`. -/
def joinColon : List String → String
  | [] => ""
  | [a] => a
  | a :: b :: t => a ++ ":" ++ joinColon (b :: t)

/-- Model of `get_modified_path` (`server.rs`).  The environment reads are
explicit parameters: `path_env` is the result of `std::env::var("PATH")`
(`none` when the variable is unreadable), `exe_dir` is the directory
containing the current executable as a string when `std::env::current_exe()`
succeeds and that path has a parent (`none` otherwise), and `data_dir` is
the data directory's string form.  The function pushes the executable
directory (if resolvable and not already a PATH segment), then the data
directory (if not already a PATH segment), deduplicates adjacent equal
pushed entries, appends the original PATH, and joins everything with
colons. -/
def get_modified_path (path_env exe_dir : Option String) (data_dir : String) :
    Option String :=
  match path_env with
  | none => none
  | some current_path =>
    some (joinColon (dedupAdj
      ((match exe_dir with
        | some e => if segOf e current_path then [] else [e]
        | none => []) ++
       (if segOf data_dir current_path then [] else [data_dir])) ++
      [current_path]))

theorem joinColon_cons (a : String) (l : List String) (h : l ≠ []) :
    joinColon (a :: l) = a ++ ":" ++ joinColon l := by
  cases l with
  | nil => exact absurd rfl h
  | cons b t => rfl

theorem string_mk_data (s : String) : String.mk s.data = s := by
  cases s
  rfl

theorem string_data_append (a b : String) : (a ++ b).data = a.data ++ b.data := by
  cases a
  cases b
  rfl

theorem string_append_assoc (a b c : String) : a ++ b ++ c = a ++ (b ++ c) := by
  cases a
  cases b
  cases c
  exact congrArg String.mk (List.append_assoc _ _ _)

theorem string_empty_append (s : String) : "" ++ s = s := by
  cases s
  rfl

theorem joinColon_last (l : List String) (s : String) :
    ∃ q, joinColon (l ++ [s]) = q ++ s := by
  induction l with
  | nil => exact ⟨"", (string_empty_append s).symm⟩
  | cons a t ih =>
    obtain ⟨q, hq⟩ := ih
    refine ⟨a ++ ":" ++ q, ?_⟩
    rw [List.cons_append, joinColon_cons a (t ++ [s]) (by simp), hq]
    exact (string_append_assoc (a ++ ":") q s).symm

theorem splitColonList_append (a s : List Char) (h : ':' ∉ a) :
    splitColonList (a ++ ':' :: s) = a :: splitColonList s := by
  induction a with
  | nil => simp [splitColonList]
  | cons c t ih =>
    have hc : ¬ c = ':' := fun hce => h (by simp [hce])
    have ht : ':' ∉ t := fun hm => h (List.mem_cons_of_mem _ hm)
    rw [List.cons_append]
    simp only [splitColonList, if_neg hc, ih ht]

theorem splitColon_append (a s : String) (h : (':' : Char) ∉ a.data) :
    splitColon (a ++ ":" ++ s) = a :: splitColon s := by
  have hd : (a ++ ":" ++ s).data = a.data ++ ':' :: s.data := by
    rw [string_data_append, string_data_append]
    simp [List.append_assoc]
  simp only [splitColon, hd, splitColonList_append a.data s.data h,
    List.map_cons, string_mk_data]

theorem splitColon_joinColon (parts : List String) (orig : String)
    (h : ∀ p ∈ parts, (':' : Char) ∉ p.data) :
    splitColon (joinColon (parts ++ [orig])) = parts ++ splitColon orig := by
  induction parts with
  | nil => simp [joinColon]
  | cons a t ih =>
    rw [List.cons_append, joinColon_cons a (t ++ [orig]) (by simp),
      splitColon_append a _ (h a (by simp)),
      ih (fun p hp => h p (by simp [hp]))]
    rfl

/-- C3: whenever PATH is readable, the value computed by
`get_modified_path` is the colon-join of an injected list `pre` followed by
the entire original PATH (which is appended, never omitted).  The injected
list is a sublist of `[exe_dir, data_dir]` in that order; it contains the
executable directory whenever that is resolvable and not already a PATH
segment, contains the data directory whenever that is not already a PATH
segment, and contains nothing else. -/
theorem get_modified_path_ordering (exe_dir : Option String) (data_dir orig : String) :
    ∃ pre : List String,
      get_modified_path (some orig) exe_dir data_dir =
        some (joinColon (pre ++ [orig])) ∧
      (∃ q : String, joinColon (pre ++ [orig]) = q ++ orig) ∧
      pre.Sublist (exe_dir.toList ++ [data_dir]) ∧
      (∀ e, exe_dir = some e → segOf e orig = false → e ∈ pre) ∧
      (segOf data_dir orig = false → data_dir ∈ pre) ∧
      (∀ x ∈ pre, (∃ e, exe_dir = some e ∧ x = e ∧ segOf e orig = false) ∨
        (x = data_dir ∧ segOf data_dir orig = false)) := by
  cases exe_dir with
  | none =>
    cases hsd : segOf data_dir orig with
    | true =>
      refine ⟨[], by simp [get_modified_path, hsd, dedupAdj],
        joinColon_last [] orig, by simp, ?_, ?_, by simp⟩
      · intro e he
        exact Option.noConfusion he
      · intro hcon
        simp [hsd] at hcon
    | false =>
      refine ⟨[data_dir], by simp [get_modified_path, hsd, dedupAdj],
        joinColon_last [data_dir] orig, by simp, ?_, by simp, ?_⟩
      · intro e he
        exact Option.noConfusion he
      · intro x hx
        rcases List.mem_singleton.mp hx with rfl
        exact Or.inr ⟨rfl, rfl⟩
  | some e =>
    cases hse : segOf e orig with
    | true =>
      cases hsd : segOf data_dir orig with
      | true =>
        refine ⟨[], by simp [get_modified_path, hse, hsd, dedupAdj],
          joinColon_last [] orig, by simp, ?_, ?_, by simp⟩
        · intro e2 he2 hf
          injection he2 with he2
          subst he2
          simp [hse] at hf
        · intro hcon
          simp [hsd] at hcon
      | false =>
        refine ⟨[data_dir], by simp [get_modified_path, hse, hsd, dedupAdj],
          joinColon_last [data_dir] orig, ?_, ?_, by simp, ?_⟩
        · exact List.Sublist.cons e (List.Sublist.refl _)
        · intro e2 he2 hf
          injection he2 with he2
          subst he2
          simp [hse] at hf
        · intro x hx
          rcases List.mem_singleton.mp hx with rfl
          exact Or.inr ⟨rfl, rfl⟩
    | false =>
      cases hsd : segOf data_dir orig with
      | true =>
        refine ⟨[e], by simp [get_modified_path, hse, hsd, dedupAdj],
          joinColon_last [e] orig, ?_, by intro e2 he2 _; injection he2 with he2; simp [he2], ?_, ?_⟩
        · exact List.Sublist.cons₂ e (List.nil_sublist _)
        · intro hcon
          simp [hsd] at hcon
        · intro x hx
          rcases List.mem_singleton.mp hx with rfl
          exact Or.inl ⟨x, rfl, rfl, hse⟩
      | false =>
        by_cases hed : e = data_dir
        · refine ⟨[data_dir],
            by simp [get_modified_path, hse, hsd, dedupAdj, hed],
            joinColon_last [data_dir] orig, ?_, ?_, by simp, ?_⟩
          · exact List.Sublist.cons e (List.Sublist.refl _)
          · intro e2 he2 hf
            injection he2 with he2
            subst he2
            simp [hed]
          · intro x hx
            rcases List.mem_singleton.mp hx with rfl
            exact Or.inr ⟨rfl, rfl⟩
        · refine ⟨[e, data_dir],
            by simp [get_modified_path, hse, hsd, dedupAdj, hed],
            joinColon_last [e, data_dir] orig, List.Sublist.refl _,
            by intro e2 he2 _; injection he2 with he2; simp [he2], by simp, ?_⟩
          intro x hx
          rcases List.mem_cons.mp hx with rfl | hx2
          · exact Or.inl ⟨x, rfl, rfl, hse⟩
          · rcases List.mem_singleton.mp hx2 with rfl
            exact Or.inr ⟨rfl, rfl⟩

/-- Witness for C3 at a concrete executable directory, data directory and
PATH. -/
theorem get_modified_path_ordering_witness :
    ∃ pre : List String,
      get_modified_path (some "/bin") (some "/e") "/d" =
        some (joinColon (pre ++ ["/bin"])) ∧
      (∃ q : String, joinColon (pre ++ ["/bin"]) = q ++ "/bin") ∧
      pre.Sublist ((some "/e").toList ++ ["/d"]) ∧
      (∀ e, (some "/e" : Option String) = some e → segOf e "/bin" = false → e ∈ pre) ∧
      (segOf "/d" "/bin" = false → "/d" ∈ pre) ∧
      (∀ x ∈ pre, (∃ e, (some "/e" : Option String) = some e ∧ x = e ∧ segOf e "/bin" = false) ∨
        (x = "/d" ∧ segOf "/d" "/bin" = false)) :=
  get_modified_path_ordering (some "/e") "/d" "/bin"

/-- C9: `get_modified_path` collapses the adjacent duplicate it can create
itself — when the executable directory equals the data directory and
neither is already a PATH segment, that directory appears exactly once
before the original PATH — while segments already duplicated inside the
inherited PATH are preserved verbatim (shown on the PATH `/bin:/bin`,
which keeps both copies). -/
theorem get_modified_path_dedups_injected (d orig : String)
    (h : segOf d orig = false) :
    get_modified_path (some orig) (some d) d = some (d ++ ":" ++ orig) ∧
    get_modified_path (some "/bin:/bin") none "/d" = some "/d:/bin:/bin" := by
  constructor
  · simp [get_modified_path, h, dedupAdj, joinColon]
  · rfl

/-- Witness for C9 with a directory not yet on the concrete PATH. -/
theorem get_modified_path_dedups_injected_witness :
    get_modified_path (some "/bin") (some "/d") "/d" =
      some ("/d" ++ ":" ++ "/bin") ∧
    get_modified_path (some "/bin:/bin") none "/d" = some "/d:/bin:/bin" :=
  get_modified_path_dedups_injected "/d" "/bin" (by decide)

/-- C10: `get_modified_path` returns `none` exactly when the PATH variable
is unreadable, and whenever PATH is readable it returns a string ending
with the entire original PATH value — for every outcome of executable
resolution, including failure (`exe_dir = none`). -/
theorem get_modified_path_none_iff_keeps_path (path_env exe_dir : Option String)
    (d : String) :
    (get_modified_path path_env exe_dir d = none ↔ path_env = none) ∧
    ∀ orig, path_env = some orig →
      ∃ q, get_modified_path path_env exe_dir d = some (q ++ orig) := by
  cases path_env with
  | none =>
    refine ⟨by simp [get_modified_path], ?_⟩
    intro orig h
    exact Option.noConfusion h
  | some p =>
    refine ⟨by simp [get_modified_path], ?_⟩
    intro orig h
    injection h with h
    subst h
    obtain ⟨q, hq⟩ := joinColon_last (dedupAdj
      ((match exe_dir with
        | some e => if segOf e p then [] else [e]
        | none => []) ++
       (if segOf d p then [] else [d]))) p
    exact ⟨q, by simp only [get_modified_path, hq]⟩

/-- Witness for C10 at a concrete readable PATH with unresolvable
executable directory. -/
theorem get_modified_path_none_iff_keeps_path_witness :
    ∃ q, get_modified_path (some "/bin") none "/d" = some (q ++ "/bin") :=
  (get_modified_path_none_iff_keeps_path (some "/bin") none "/d").2 "/bin" rfl

/-- Counterexample to C8 as stated: with the readable PATH `"x"` and the
data directory `"a:b"` (whose string form contains a colon), the data
directory is not a colon-delimited segment of PATH, yet the returned value
`"a:b:x"` does not contain `"a:b"` as a colon-delimited segment either —
its segments are `a`, `b` and `x`. -/
theorem get_modified_path_colon_data_dir_cex :
    segOf "a:b" "x" = false ∧
    get_modified_path (some "x") none "a:b" = some "a:b:x" ∧
    segOf "a:b" "a:b:x" = false := by
  refine ⟨by decide, by decide, by decide⟩

/-- C8 (amended): for every readable PATH, provided the string forms of the
data directory and of the resolved executable directory contain no colon:
if the data directory is not an exact colon-delimited segment of PATH, the
returned value contains it as a segment; if it already is such a segment,
it is not added again — it occurs exactly as many times among the result's
segments as among the original PATH's segments. -/
theorem get_modified_path_data_dir_occurrence (exe_dir : Option String)
    (d orig : String) (hd : (':' : Char) ∉ d.data)
    (he : ∀ e, exe_dir = some e → (':' : Char) ∉ e.data) :
    ∃ s, get_modified_path (some orig) exe_dir d = some s ∧
      (segOf d orig = false → segOf d s = true) ∧
      (segOf d orig = true →
        (splitColon s).count d = (splitColon orig).count d) := by
  cases exe_dir with
  | none =>
    cases hsd : segOf d orig with
    | true =>
      refine ⟨orig, by simp [get_modified_path, hsd, dedupAdj, joinColon], ?_, ?_⟩
      · intro hcon
        simp at hcon
      · intro _
        rfl
    | false =>
      have hs : splitColon (joinColon ([d] ++ [orig])) = [d] ++ splitColon orig :=
        splitColon_joinColon [d] orig (by
          intro p hp
          rcases List.mem_singleton.mp hp with rfl
          exact hd)
      refine ⟨joinColon ([d] ++ [orig]),
        by simp [get_modified_path, hsd, dedupAdj, joinColon], ?_, ?_⟩
      · intro _
        unfold segOf
        rw [hs]
        simp
      · intro hcon
        simp at hcon
  | some e =>
    have he2 : (':' : Char) ∉ e.data := he e rfl
    cases hse : segOf e orig with
    | true =>
      cases hsd : segOf d orig with
      | true =>
        refine ⟨orig, by simp [get_modified_path, hse, hsd, dedupAdj, joinColon], ?_, ?_⟩
        · intro hcon
          simp at hcon
        · intro _
          rfl
      | false =>
        have hs : splitColon (joinColon ([d] ++ [orig])) = [d] ++ splitColon orig :=
          splitColon_joinColon [d] orig (by
            intro p hp
            rcases List.mem_singleton.mp hp with rfl
            exact hd)
        refine ⟨joinColon ([d] ++ [orig]),
          by simp [get_modified_path, hse, hsd, dedupAdj, joinColon], ?_, ?_⟩
        · intro _
          unfold segOf
          rw [hs]
          simp
        · intro hcon
          simp at hcon
    | false =>
      cases hsd : segOf d orig with
      | true =>
        have hed : (e == d) = false := by
          rw [beq_eq_false_iff_ne]
          intro hh
          rw [hh] at hse
          rw [hse] at hsd
          exact Bool.noConfusion hsd
        have hs : splitColon (joinColon ([e] ++ [orig])) = [e] ++ splitColon orig :=
          splitColon_joinColon [e] orig (by
            intro p hp
            rcases List.mem_singleton.mp hp with rfl
            exact he2)
        refine ⟨joinColon ([e] ++ [orig]),
          by simp [get_modified_path, hse, hsd, dedupAdj, joinColon], ?_, ?_⟩
        · intro hcon
          simp at hcon
        · intro _
          rw [hs]
          simp [List.count_cons, hed]
      | false =>
        by_cases hed : e = d
        · have hs : splitColon (joinColon ([d] ++ [orig])) = [d] ++ splitColon orig :=
            splitColon_joinColon [d] orig (by
              intro p hp
              rcases List.mem_singleton.mp hp with rfl
              exact hd)
          refine ⟨joinColon ([d] ++ [orig]),
            by simp [get_modified_path, hse, hsd, dedupAdj, joinColon, hed], ?_, ?_⟩
          · intro _
            unfold segOf
            rw [hs]
            simp
          · intro hcon
            simp at hcon
        · have hs : splitColon (joinColon ([e, d] ++ [orig])) =
              [e, d] ++ splitColon orig :=
            splitColon_joinColon [e, d] orig (by
              intro p hp
              rcases List.mem_cons.mp hp with rfl | hp2
              · exact he2
              · rcases List.mem_singleton.mp hp2 with rfl
                exact hd)
          refine ⟨joinColon ([e, d] ++ [orig]),
            by simp [get_modified_path, hse, hsd, dedupAdj, joinColon, hed], ?_, ?_⟩
          · intro _
            unfold segOf
            rw [hs]
            simp
          · intro hcon
            simp at hcon

/-- Witness for C8 (amended) at a concrete colon-free data directory and
PATH. -/
theorem get_modified_path_data_dir_occurrence_witness :
    ∃ s, get_modified_path (some "/bin") none "/d" = some s ∧
      (segOf "/d" "/bin" = false → segOf "/d" s = true) ∧
      (segOf "/d" "/bin" = true →
        (splitColon s).count "/d" = (splitColon "/bin").count "/d") :=
  get_modified_path_data_dir_occurrence none "/d" "/bin" (by decide)
    (fun e h => Option.noConfusion h)

/-- Continuation-byte test for UTF-8 decoding: `0x80 ≤ b ≤ 0xBF`. -/
def isCont (b : Nat) : Bool := 0x80 ≤ b && b ≤ 0xBF

/-- Allowed second byte of a three-byte UTF-8 sequence headed by `b`
(excludes overlong encodings and surrogate code points). -/
def valid3Second (b b2 : Nat) : Bool :=
  if b = 0xE0 then 0xA0 ≤ b2 && b2 ≤ 0xBF
  else if b = 0xED then 0x80 ≤ b2 && b2 ≤ 0x9F
  else isCont b2

/-- Allowed second byte of a four-byte UTF-8 sequence headed by `b`
(excludes overlong encodings and code points beyond U+10FFFF). -/
def valid4Second (b b2 : Nat) : Bool :=
  if b = 0xF0 then 0x90 ≤ b2 && b2 ≤ 0xBF
  else if b = 0xF4 then 0x80 ≤ b2 && b2 ≤ 0x8F
  else isCont b2

/-- The replacement character U+FFFD. -/
def replChar : Char := Char.ofNat 0xFFFD

/-- Lossy UTF-8 decoding of a byte sequence into characters, modelling Rust
`String::from_utf8_lossy`: each maximal malformed subsequence is replaced
by one U+FFFD replacement character, and decoding resumes at the first
byte not consumed by the malformed sequence. -/
def utf8LossyChars : List Nat → List Char
  | [] => []
  | b :: t =>
    if b ≤ 0x7F then Char.ofNat b :: utf8LossyChars t
    else if 0xC2 ≤ b && b ≤ 0xDF then
      match t with
      | [] => [replChar]
      | b2 :: t2 =>
        if isCont b2 then
          Char.ofNat (((b &&& 0x1F) <<< 6) ||| (b2 &&& 0x3F)) :: utf8LossyChars t2
        else replChar :: utf8LossyChars (b2 :: t2)
    else if 0xE0 ≤ b && b ≤ 0xEF then
      match t with
      | [] => [replChar]
      | b2 :: t2 =>
        if valid3Second b b2 then
          match t2 with
          | [] => [replChar]
          | b3 :: t3 =>
            if isCont b3 then
              Char.ofNat (((b &&& 0x0F) <<< 12) ||| ((b2 &&& 0x3F) <<< 6) |||
                (b3 &&& 0x3F)) :: utf8LossyChars t3
            else replChar :: utf8LossyChars (b3 :: t3)
        else replChar :: utf8LossyChars (b2 :: t2)
    else if 0xF0 ≤ b && b ≤ 0xF4 then
      match t with
      | [] => [replChar]
      | b2 :: t2 =>
        if valid4Second b b2 then
          match t2 with
          | [] => [replChar]
          | b3 :: t3 =>
            if isCont b3 then
              match t3 with
              | [] => [replChar]
              | b4 :: t4 =>
                if isCont b4 then
                  Char.ofNat (((b &&& 0x07) <<< 18) ||| ((b2 &&& 0x3F) <<< 12) |||
                    ((b3 &&& 0x3F) <<< 6) ||| (b4 &&& 0x3F)) :: utf8LossyChars t4
                else replChar :: utf8LossyChars (b4 :: t4)
            else replChar :: utf8LossyChars (b3 :: t3)
        else replChar :: utf8LossyChars (b2 :: t2)
    else replChar :: utf8LossyChars t

/-- Lossy UTF-8 decoding to a string, modelling
`String::from_utf8_lossy(bytes).to_string()`. -/
def utf8Lossy (bs : List Nat) : String := ⟨utf8LossyChars bs⟩

/-- Whether a byte sequence is well-formed UTF-8, with the same sequence
classification as `utf8LossyChars`. -/
def utf8IsValid : List Nat → Bool
  | [] => true
  | b :: t =>
    if b ≤ 0x7F then utf8IsValid t
    else if 0xC2 ≤ b && b ≤ 0xDF then
      match t with
      | [] => false
      | b2 :: t2 => isCont b2 && utf8IsValid t2
    else if 0xE0 ≤ b && b ≤ 0xEF then
      match t with
      | [] => false
      | b2 :: t2 =>
        valid3Second b b2 &&
          (match t2 with
           | [] => false
           | b3 :: t3 => isCont b3 && utf8IsValid t3)
    else if 0xF0 ≤ b && b ≤ 0xF4 then
      match t with
      | [] => false
      | b2 :: t2 =>
        valid4Second b b2 &&
          (match t2 with
           | [] => false
           | b3 :: t3 =>
             isCont b3 &&
               (match t3 with
                | [] => false
                | b4 :: t4 => isCont b4 && utf8IsValid t4))
    else false

/-- Modelled from the spec and the Rust standard library (not part of this
repository): `String::from_utf8` succeeds exactly on well-formed UTF-8
input, and on such input no byte is replaced, so the decoded string
coincides with the lossy decoding. -/
def string_from_utf8 (bs : List Nat) : Option String :=
  if utf8IsValid bs then some (utf8Lossy bs) else none

/-- Captured output of a completed child process, modelling
`std::process::Output` as used in `server.rs`: `success` is
`status.success()`, `stdout` and `stderr` are the raw captured bytes. -/
structure ProcOutput where
  success : Bool
  stdout : List Nat
  stderr : List Nat
deriving DecidableEq, Repr

/-- An HTTP response as the `get_output` handler produces it: the status
code, the Content-Type header when the handler sets one, and the body
text. -/
structure HttpResponse where
  status : Nat
  contentType : Option String
  body : String
deriving DecidableEq, Repr

/-- Model of the `get_output` handler (`server.rs`).  Process execution is
abstracted as the function `exec` from the resolved output definition to
either a spawn failure (`Except.error` carrying the display of the
`std::io::Error`) or the completed child's captured output; the handler
never calls it when the slug is unknown, so its result is then independent
of `exec`.  Modelled from the spec for the poem collaborator (not in this
repository): `poem::Error::from_status(NOT_FOUND)` surfaces as a 404
response with empty body, and `poem::Error::from_string(msg, status)` as a
response with that status and body `msg`. -/
def get_output (config : ResolvedConfig) (slug : String)
    (exec : OutputConfig → Except String ProcOutput) : HttpResponse :=
  match config.get_output_by_slug slug with
  | none => ⟨404, none, ""⟩
  | some output_config =>
    match exec output_config with
    | .error e => ⟨500, none, "Failed to execute command: " ++ e⟩
    | .ok out =>
      if !out.success then ⟨500, none, utf8Lossy out.stderr⟩
      else ⟨200, some "text/plain; charset=utf-8",
        (string_from_utf8 out.stdout).getD (utf8Lossy out.stdout)⟩

/-- C4: when the slug resolves and the command spawns but exits with a
failure status, the handler returns HTTP 500 with body equal to the
child's raw stderr bytes decoded as UTF-8 with invalid sequences replaced
(lossy decoding), never rejected. -/
theorem get_output_exit_failure (config : ResolvedConfig) (slug : String)
    (exec : OutputConfig → Except String ProcOutput) (oc : OutputConfig)
    (out : ProcOutput) (h1 : config.get_output_by_slug slug = some oc)
    (h2 : exec oc = .ok out) (h3 : out.success = false) :
    get_output config slug exec = ⟨500, none, utf8Lossy out.stderr⟩ := by
  simp [get_output, h1, h2, h3]

/-- Witness for C4: a child exiting non-zero whose stderr contains an
invalid UTF-8 byte still yields a 500 with the lossily decoded stderr. -/
theorem get_output_exit_failure_witness :
    get_output ⟨[("s", ⟨"s", "cmd", []⟩)], "/data"⟩ "s"
      (fun _ => .ok ⟨false, [], [0xFF, 0x62]⟩) =
      ⟨500, none, utf8Lossy [0xFF, 0x62]⟩ :=
  get_output_exit_failure ⟨[("s", ⟨"s", "cmd", []⟩)], "/data"⟩ "s"
    (fun _ => .ok ⟨false, [], [0xFF, 0x62]⟩) ⟨"s", "cmd", []⟩
    ⟨false, [], [0xFF, 0x62]⟩ rfl rfl rfl

/-- C5: when the slug resolves and the command spawns and exits with a
success status, the handler returns HTTP 200 with the header
`Content-Type: text/plain; charset=utf-8` and body equal to the child's raw
stdout bytes decoded as UTF-8 with invalid sequences replaced (the strict
decode attempted first agrees with the lossy decode whenever it
succeeds). -/
theorem get_output_exit_success (config : ResolvedConfig) (slug : String)
    (exec : OutputConfig → Except String ProcOutput) (oc : OutputConfig)
    (out : ProcOutput) (h1 : config.get_output_by_slug slug = some oc)
    (h2 : exec oc = .ok out) (h3 : out.success = true) :
    get_output config slug exec =
      ⟨200, some "text/plain; charset=utf-8", utf8Lossy out.stdout⟩ := by
  simp only [get_output, h1, h2, h3, Bool.not_true, Bool.false_eq_true, if_false]
  unfold string_from_utf8
  split
  · rfl
  · rfl

/-- Witness for C5: a successful echo-like child produces 200 with its
stdout decoded. -/
theorem get_output_exit_success_witness :
    get_output ⟨[("s", ⟨"s", "cmd", []⟩)], "/data"⟩ "s"
      (fun _ => .ok ⟨true, [0x68, 0x69], []⟩) =
      ⟨200, some "text/plain; charset=utf-8", utf8Lossy [0x68, 0x69]⟩ :=
  get_output_exit_success ⟨[("s", ⟨"s", "cmd", []⟩)], "/data"⟩ "s"
    (fun _ => .ok ⟨true, [0x68, 0x69], []⟩) ⟨"s", "cmd", []⟩
    ⟨true, [0x68, 0x69], []⟩ rfl rfl rfl

/-- C6: when the slug is not a key of the registry, the handler returns
HTTP 404 with an empty body for every execution oracle, i.e. without
observing process execution at all (no process is spawned). -/
theorem get_output_unknown_slug (config : ResolvedConfig) (slug : String)
    (h : config.get_output_by_slug slug = none) :
    ∀ exec : OutputConfig → Except String ProcOutput,
      get_output config slug exec = ⟨404, none, ""⟩ := by
  intro exec
  simp [get_output, h]

/-- Witness for C6 at a concrete registry and unknown slug. -/
theorem get_output_unknown_slug_witness :
    get_output ⟨[("s", ⟨"s", "cmd", []⟩)], "/data"⟩ "zz"
      (fun _ => .ok ⟨true, [], []⟩) = ⟨404, none, ""⟩ :=
  get_output_unknown_slug ⟨[("s", ⟨"s", "cmd", []⟩)], "/data"⟩ "zz" rfl
    (fun _ => .ok ⟨true, [], []⟩)

/-- C7: a spawn failure (the OS cannot start the process) yields HTTP 500
with a human-readable description that embeds the underlying OS error
message, while a child that runs and exits non-zero takes the distinct
exit-failure path whose body is the child's stderr — the two outcomes
produce different response bodies. -/
theorem get_output_spawn_error_distinct (config : ResolvedConfig)
    (slug : String) (exec : OutputConfig → Except String ProcOutput)
    (oc : OutputConfig) (h1 : config.get_output_by_slug slug = some oc) :
    (∀ msg, exec oc = .error msg →
      get_output config slug exec =
        ⟨500, none, "Failed to execute command: " ++ msg⟩) ∧
    (∀ out, exec oc = .ok out → out.success = false →
      get_output config slug exec = ⟨500, none, utf8Lossy out.stderr⟩) := by
  constructor
  · intro msg h2
    simp [get_output, h1, h2]
  · intro out h2 h3
    simp [get_output, h1, h2, h3]

/-- Witness for C7: a spawn failure carrying a concrete OS error message
yields the 500 response embedding that message. -/
theorem get_output_spawn_error_distinct_witness :
    get_output ⟨[("s", ⟨"s", "cmd", []⟩)], "/data"⟩ "s"
      (fun _ => .error "No such file or directory (os error 2)") =
      ⟨500, none,
        "Failed to execute command: " ++ "No such file or directory (os error 2)"⟩ :=
  (get_output_spawn_error_distinct ⟨[("s", ⟨"s", "cmd", []⟩)], "/data"⟩ "s"
    (fun _ => .error "No such file or directory (os error 2)")
    ⟨"s", "cmd", []⟩ rfl).1 "No such file or directory (os error 2)" rfl

end Junction
